import Mathlib

/-!
Verification of the paper-scraper pipeline (`paper_scraper.py`).

The development shallowly embeds the program's core: the persisted
version map (a JSON file mapping versioned pdf-url identifiers to
integer versions), the novelty check, the version extraction from a
pdf url, the recency filters, the per-category candidate resolution,
the stable descending sort plus cap-2 truncation, the commit of the
final selection into the version map, and the plain-text email body
builder.  Timestamps are modelled as integers counting seconds
(`timedelta(days=d)` is `d * 86400` seconds); external adapters
(search, summarization, SMTP transport, date formatting) are inputs.
-/

/-! ## The persisted version map (Python `Dict[str, int]`) -/

/-- The version state: an insertion-ordered mapping from versioned
identifier (pdf url) to stored integer version, as a Python dict. -/
def VersionState := List (String × Int)

instance : DecidableEq VersionState := by
  unfold VersionState
  infer_instance

/-- Python dict lookup `d[k]` / `k in d` combined: first (unique) key wins. -/
def dictLookup (k : String) : VersionState → Option Int
  | [] => none
  | (k', v) :: rest => if k' = k then some v else dictLookup k rest

/-- Python dict assignment `d[k] = v`: overwrite in place if the key is
present (keeping its position), otherwise append at the end. -/
def dictInsert (k : String) (v : Int) : VersionState → VersionState
  | [] => [(k, v)]
  | (k', v') :: rest =>
    if k' = k then (k', v) :: rest else (k', v') :: dictInsert k v rest

/-- Source function `is_new_version(pdf_url, current_version, downloaded)`:
true if `pdf_url not in downloaded`, else `current_version > downloaded[pdf_url]`. -/
def is_new_version (pdf_url : String) (current_version : Int)
    (downloaded : VersionState) : Bool :=
  match dictLookup pdf_url downloaded with
  | none => true
  | some stored => decide (stored < current_version)

/-! ## Version extraction (`get_version_from_pdf_url`)

The source searches `re.search(r"v(\d+)", pdf_url)` and returns
`int(match.group(1))`, defaulting to 1 when the argument is falsy
(`None` or the empty string; we model the string case) or when no
match is found.  The regex scan is embedded directly: find the
leftmost `v` that is followed by at least one ASCII digit and read
the maximal digit run after it. -/

/-- ASCII decimal digit test. -/
def isDigitChar (c : Char) : Bool :=
  decide (48 ≤ c.toNat) && decide (c.toNat ≤ 57)

/-- Consume the maximal leading ASCII digit run, folding the digits
into the accumulator in base 10; returns the value and the rest. -/
def parseDigits : List Char → Nat → Nat × List Char
  | [], acc => (acc, [])
  | c :: cs, acc =>
    if isDigitChar c then parseDigits cs (acc * 10 + (c.toNat - 48))
    else (acc, c :: cs)

/-- Leftmost occurrence of `v` followed by at least one ASCII digit;
the value of the maximal digit run after that `v` (the regex
`v(\d+)` restricted to ASCII digits). -/
def findVersionNum : List Char → Option Nat
  | [] => none
  | c :: cs =>
    if c = 'v' then
      match cs with
      | d :: _ => if isDigitChar d then some (parseDigits cs 0).1 else findVersionNum cs
      | [] => none
    else findVersionNum cs

/-- Source function `get_version_from_pdf_url(pdf_url)`.  The source
accepts `str | None`; both `None` and `""` take the falsy early
return, which the embedding represents by the empty string. -/
def get_version_from_pdf_url (pdf_url : String) : Int :=
  if pdf_url = "" then 1
  else
    match findVersionNum pdf_url.data with
    | some n => (n : Int)
    | none => 1

/-! ## Paper records -/

/-- A search result as consumed from the arxiv adapter (the fields of
`arxiv.Result` that `get_paper_info` reads).  `published` and
`updated` are UTC instants in seconds. -/
structure ArxivResult where
  title : String
  authors : List String
  summary : String
  published : Int
  updated : Int
  pdf_url : String
  doi : Option String
  primary_category : String
  comment : Option String
  journal_ref : Option String
deriving DecidableEq

/-- The dictionary built by `get_paper_info`: the result's fields plus
the version extracted from the pdf url. -/
structure PaperInfo where
  title : String
  authors : List String
  summary : String
  published : Int
  updated : Int
  version : Int
  pdf_url : String
  doi : Option String
  primary_category : String
  comment : Option String
  journal_ref : Option String
deriving DecidableEq

/-- Source function `get_paper_info(paper)`. -/
def get_paper_info (paper : ArxivResult) : PaperInfo :=
  ⟨paper.title, paper.authors, paper.summary, paper.published, paper.updated,
   get_version_from_pdf_url paper.pdf_url, paper.pdf_url, paper.doi,
   paper.primary_category, paper.comment, paper.journal_ref⟩

/-! ## Recency filters -/

/-- Source function `filter_recent_by_published(papers, days)`: keep papers with
`published >= now - timedelta(days=days)`; `now` is passed explicitly
(the source reads the clock), `timedelta(days=days)` is `days * 86400`
seconds. -/
def filter_recent_by_published (papers : List ArxivResult) (now : Int)
    (days : Int) : List ArxivResult :=
  let date_limit := now - days * 86400
  papers.filter (fun paper => decide (date_limit ≤ paper.published))

/-- Source function `filter_recent_by_updated(papers, days, min_version)`: keep papers
with `updated >= now - timedelta(days=days)` and
`get_version_from_pdf_url(pdf_url) >= min_version`. -/
def filter_recent_by_updated (papers : List ArxivResult) (now : Int)
    (days : Int) (min_version : Int) : List ArxivResult :=
  let date_limit := now - days * 86400
  papers.filter (fun paper =>
    decide (date_limit ≤ paper.updated) &&
    decide (min_version ≤ get_version_from_pdf_url paper.pdf_url))

/-! ## The persisted state file (`load_downloaded_papers` / `save_downloaded_papers`)

The state file holds `json.dump(downloaded, ensure_ascii=False, indent=2)`
of a `Dict[str, int]`.  The embedding works at character level: `json_dump`
produces exactly the characters Python writes (two-space indent, `", "`-free
`": "` key separator, `,` item separator followed by a newline, escapes for
`"`, `\` and control characters, other characters kept raw), and
`json_parse` reads a JSON object with string keys and integer values
(whitespace-tolerant, full string-escape handling, leading-zero and
trailing-garbage rejection).  Content that is valid JSON but not a
string-to-integer object (the declared `Dict[str, int]` type of the file)
is treated as a parse failure.  A file is `Option String`: `none` when
`os.path.exists` is false, otherwise its text. -/

/-- Lowercase hex digit character for a value below 16. -/
def hexDigitChar (d : Nat) : Char :=
  if d < 10 then Char.ofNat (48 + d) else Char.ofNat (87 + d)

/-- JSON escape of one character, as Python's encoder emits it with
`ensure_ascii=False`: escape `"`, `\`, the five short control escapes,
`\u00xx` for the remaining control characters, all else raw. -/
def escChar (c : Char) : List Char :=
  if c = '"' then ['\\', '"']
  else if c = '\\' then ['\\', '\\']
  else if c = '\x08' then ['\\', 'b']
  else if c = '\x0c' then ['\\', 'f']
  else if c = '\n' then ['\\', 'n']
  else if c = '\r' then ['\\', 'r']
  else if c = '\t' then ['\\', 't']
  else if c.toNat < 32 then
    ['\\', 'u', '0', '0', hexDigitChar (c.toNat / 16), hexDigitChar (c.toNat % 16)]
  else [c]

/-- JSON escape of a character sequence. -/
def escChars : List Char → List Char
  | [] => []
  | c :: cs => escChar c ++ escChars cs

/-- Decimal digits of a natural number (most significant first), with
explicit fuel so the definition is structurally recursive; `natChars`
supplies sufficient fuel. -/
def natCharsAux : Nat → Nat → List Char
  | 0, _ => []
  | fuel + 1, n =>
    if n < 10 then [Char.ofNat (48 + n)]
    else natCharsAux fuel (n / 10) ++ [Char.ofNat (48 + n % 10)]

/-- Decimal digits of a natural number, most significant first. -/
def natChars (n : Nat) : List Char := natCharsAux (n + 1) n

/-- Decimal rendering of an integer, as Python prints `int` into JSON. -/
def intChars (v : Int) : List Char :=
  if v < 0 then '-' :: natChars v.natAbs else natChars v.toNat

/-- The characters of one serialized member: two-space indent, quoted
escaped key, `": "`, decimal value. -/
def entryChars (k : String) (v : Int) : List Char :=
  ' ' :: ' ' :: '"' :: (escChars k.data ++ '"' :: ':' :: ' ' :: intChars v)

/-- Serialized members joined by `",\n"` (Python's item separator when
an indent is set). -/
def entriesChars : List (String × Int) → List Char
  | [] => []
  | (k, v) :: rest =>
    match rest with
    | [] => entryChars k v
    | _ :: _ => entryChars k v ++ ',' :: '\n' :: entriesChars rest

/-- The characters separating one serialized member from what follows:
directly the terminator `t` after the last member, otherwise `",\n"`
and the remaining members (used to state the round-trip lemmas). -/
def entrySepChars (m : List (String × Int)) (t : List Char) : List Char :=
  match m with
  | [] => t
  | _ :: _ => ',' :: '\n' :: (entriesChars m ++ t)

/-- Serialization `json.dump(m, ensure_ascii=False, indent=2)`: two braces for the empty
map, otherwise `{`, newline, indented members, newline, `}`. -/
def json_dump (m : List (String × Int)) : String :=
  match m with
  | [] => "\x7b\x7d"
  | _ :: _ => String.mk ('{' :: '\n' :: (entriesChars m ++ '\n' :: '}' :: []))

/-- Source function `save_downloaded_papers(downloaded)`: the state file after the
write holds exactly the serialized map. -/
def save_downloaded_papers (downloaded : List (String × Int)) : Option String :=
  some (json_dump downloaded)

/-- JSON whitespace: space, newline, tab, carriage return. -/
def isWsChar (c : Char) : Bool :=
  decide (c.toNat = 32) || decide (c.toNat = 10) ||
    decide (c.toNat = 9) || decide (c.toNat = 13)

/-- Drop leading JSON whitespace. -/
def skipWs : List Char → List Char
  | [] => []
  | c :: cs => if isWsChar c then skipWs cs else c :: cs

/-- Value of a hex digit character. -/
def hexVal (c : Char) : Option Nat :=
  if 48 ≤ c.toNat ∧ c.toNat ≤ 57 then some (c.toNat - 48)
  else if 97 ≤ c.toNat ∧ c.toNat ≤ 102 then some (c.toNat - 87)
  else if 65 ≤ c.toNat ∧ c.toNat ≤ 70 then some (c.toNat - 55)
  else none

/-- The single-character JSON escapes. -/
def unescapeChar (c : Char) : Option Char :=
  if c = '"' then some '"'
  else if c = '\\' then some '\\'
  else if c = '/' then some '/'
  else if c = 'b' then some '\x08'
  else if c = 'f' then some '\x0c'
  else if c = 'n' then some '\n'
  else if c = 'r' then some '\r'
  else if c = 't' then some '\t'
  else none

/-- Parse the body of a JSON string (the opening quote already
consumed): returns the decoded characters and the rest of the input
after the closing quote. -/
def parseJStringChars : List Char → Option (List Char × List Char)
  | [] => none
  | c :: cs =>
    if c = '"' then some ([], cs)
    else if c = '\\' then
      match cs with
      | [] => none
      | e :: cs2 =>
        if e = 'u' then
          match cs2 with
          | h1 :: h2 :: h3 :: h4 :: cs3 =>
            match hexVal h1, hexVal h2, hexVal h3, hexVal h4 with
            | some a, some b, some c1, some d =>
              match parseJStringChars cs3 with
              | some (s, r) =>
                some (Char.ofNat (((a * 16 + b) * 16 + c1) * 16 + d) :: s, r)
              | none => none
            | _, _, _, _ => none
          | _ => none
        else
          match unescapeChar e with
          | some d =>
            match parseJStringChars cs2 with
            | some (s, r) => some (d :: s, r)
            | none => none
          | none => none
    else if c.toNat < 32 then none
    else
      match parseJStringChars cs with
      | some (s, r) => some (c :: s, r)
      | none => none

/-- Parse a JSON natural number (no sign), rejecting leading zeros. -/
def parseJNat : List Char → Option (Nat × List Char)
  | [] => none
  | c :: cs =>
    if ¬ isDigitChar c then none
    else if c = '0' then
      match cs with
      | [] => some (0, [])
      | d :: _ => if isDigitChar d then none else some (0, cs)
    else some (parseDigits (c :: cs) 0)

/-- Parse a JSON integer (optional minus sign). -/
def parseJInt : List Char → Option (Int × List Char)
  | [] => none
  | c :: cs =>
    if c = '-' then
      match parseJNat cs with
      | some (n, r) => some (-(n : Int), r)
      | none => none
    else
      match parseJNat (c :: cs) with
      | some (n, r) => some ((n : Int), r)
      | none => none

/-- Whether the input continues a JSON number into a fraction or
exponent; such a value is a float, not an `int`, so the typed parse
rejects it. -/
def isNumCont : List Char → Bool
  | [] => false
  | c :: _ => c = '.' || c = 'e' || c = 'E'

/-- Parse the members of a JSON object (positioned at the first
character after `{` and any whitespace, which must start a key),
returning the members in file order and the input after the closing
`}`.  Fuel bounds the number of members; each member consumes at
least one character, so any fuel above the input length suffices. -/
def parseMembers : Nat → List Char → Option (List (String × Int) × List Char)
  | 0, _ => none
  | fuel + 1, cs =>
    match cs with
    | [] => none
    | c :: cs1 =>
      if c = '"' then
        match parseJStringChars cs1 with
        | none => none
        | some (key, cs2) =>
          match skipWs cs2 with
          | [] => none
          | c2 :: cs3 =>
            if c2 = ':' then
              match parseJInt (skipWs cs3) with
              | none => none
              | some (v, cs4) =>
                if isNumCont cs4 then none
                else
                  match skipWs cs4 with
                  | [] => none
                  | c3 :: cs5 =>
                    if c3 = ',' then
                      match parseMembers fuel (skipWs cs5) with
                      | some (m, r) => some ((String.mk key, v) :: m, r)
                      | none => none
                    else if c3 = '}' then some ([(String.mk key, v)], cs5)
                    else none
            else none
      else none

/-- Parse a complete state file: a JSON object with string keys and
integer values, with nothing but whitespace around it.  `none` models
every parse failure of `json.load` on such content, as well as valid
JSON that is not of the file's `Dict[str, int]` type. -/
def json_parse (s : String) : Option (List (String × Int)) :=
  match skipWs s.data with
  | [] => none
  | c :: cs1 =>
    if c = '{' then
      match skipWs cs1 with
      | [] => none
      | c2 :: cs2 =>
        if c2 = '}' then (if (skipWs cs2).isEmpty then some [] else none)
        else
          match parseMembers (cs2.length + 2) (c2 :: cs2) with
          | some (m, r) => if (skipWs r).isEmpty then some m else none
          | none => none
    else none

/-- Source function `load_downloaded_papers()`: empty map when the file is missing
(`os.path.exists` false) or when reading/parsing fails; the parsed
map otherwise. -/
def load_downloaded_papers (file : Option String) : VersionState :=
  match file with
  | none => []
  | some content =>
    match json_parse content with
    | some m => m
    | none => []

/-! ## Selection: stable descending sort plus cap-2 truncation

`candidate_updated.sort(key=lambda x: x["updated"], reverse=True)` is
CPython's stable sort: elements are ordered by descending key and
elements with equal keys keep their input order.  Stability plus
sortedness determines the output uniquely, so a stable insertion sort
is an extensionally faithful model. -/

/-- Insert `x` into `l` before the first element whose key is not
greater than `x`'s: a later-inserted element goes in front of
equal-key elements, matching stability under `foldr`. -/
def insertDescBy (key : PaperInfo → Int) (x : PaperInfo) :
    List PaperInfo → List PaperInfo
  | [] => [x]
  | y :: ys => if key x < key y then y :: insertDescBy key x ys else x :: y :: ys

/-- Stable sort by descending key. -/
def sortDescBy (key : PaperInfo → Int) (l : List PaperInfo) : List PaperInfo :=
  l.foldr (insertDescBy key) []

/-! ## The per-category resolution loops of `main` -/

/-- The `for paper in recent_updated` loop: skip records that fail
`is_new_version`, append the rest to `candidate_updated` and record
their titles in `updated_titles` (the Python `set` is modelled by a
list used only for membership). -/
def updatedLoop (downloaded : VersionState) :
    List ArxivResult → List PaperInfo → List String → List PaperInfo × List String
  | [], candU, titles => (candU, titles)
  | paper :: rest, candU, titles =>
    let info := get_paper_info paper
    if is_new_version info.pdf_url info.version downloaded then
      updatedLoop downloaded rest (candU ++ [info]) (titles ++ [info.title])
    else
      updatedLoop downloaded rest candU titles

/-- The `for paper in recent_published` loop: skip records whose title
is in `updated_titles`, then skip records that fail `is_new_version`,
append the rest to `candidate_published`. -/
def publishedLoop (downloaded : VersionState) (titles : List String) :
    List ArxivResult → List PaperInfo → List PaperInfo
  | [], candP => candP
  | paper :: rest, candP =>
    let info := get_paper_info paper
    if info.title ∈ titles then publishedLoop downloaded titles rest candP
    else if is_new_version info.pdf_url info.version downloaded then
      publishedLoop downloaded titles rest (candP ++ [info])
    else publishedLoop downloaded titles rest candP

/-- One iteration of the category loop of `main`: filter the category's
search results by recency, then run the two resolution loops.  The
title set starts empty in every iteration; the candidate lists
accumulate across iterations. -/
def processCategory (downloaded : VersionState) (now : Int)
    (papers : List ArxivResult) (cand : List PaperInfo × List PaperInfo) :
    List PaperInfo × List PaperInfo :=
  let recent_published := filter_recent_by_published papers now 180
  let recent_updated := filter_recent_by_updated papers now 180 2
  let resolved := updatedLoop downloaded recent_updated cand.1 []
  let candP := publishedLoop downloaded resolved.2 recent_published cand.2
  (resolved.1, candP)

/-! ## Email body (`format_papers_for_email`) and transport -/

/-- Python truthiness of an optional environment string: unset or
empty is falsy. -/
def pyTruthy : Option String → Bool
  | none => false
  | some s => decide (¬ s = "")

/-- Source function `send_email_via_qq`: returns false without sending when sender or
auth code is missing; otherwise delivery succeeds iff the SMTP
exchange does (`smtp_ok` is the transport oracle; on failure the
exception is caught and false returned). -/
def send_email_via_qq (_subject _body _recipient : String)
    (sender auth_code : Option String) (smtp_ok : Bool) : Bool :=
  if !(pyTruthy sender) || !(pyTruthy auth_code) then false else smtp_ok

/-- The `"=" * 34` separator line. -/
def eqLine : String := String.mk (List.replicate 34 '=')

/-- One updated-section entry of the email body (`fmtDate` models
`strftime('%Y-%m-%d')`, `summarize` models `ai_summarize_zh`). -/
def emailEntryUpdated (summarize : String → String) (fmtDate : Int → String)
    (count : Nat) (paper : PaperInfo) : List String :=
  ["\n【更新】论文 #" ++ toString count,
   "标题: " ++ paper.title,
   "作者: " ++ String.intercalate ", " (paper.authors.take 5),
   "发布时间: " ++ fmtDate paper.published,
   "更新日期: " ++ fmtDate paper.updated,
   "版本: v" ++ toString paper.version]
  ++ (match paper.comment with
      | some c => if c = "" then [] else ["注释: " ++ c]
      | none => [])
  ++ (if summarize paper.summary = "" then []
      else ["\n要点: " ++ summarize paper.summary])
  ++ ["\n链接: " ++ paper.pdf_url, eqLine]

/-- One published-section entry of the email body (no updated-date
line). -/
def emailEntryPublished (summarize : String → String) (fmtDate : Int → String)
    (count : Nat) (paper : PaperInfo) : List String :=
  ["\n【发布】论文 #" ++ toString count,
   "标题: " ++ paper.title,
   "作者: " ++ String.intercalate ", " (paper.authors.take 5),
   "发布时间: " ++ fmtDate paper.published,
   "版本: v" ++ toString paper.version]
  ++ (match paper.comment with
      | some c => if c = "" then [] else ["注释: " ++ c]
      | none => [])
  ++ (if summarize paper.summary = "" then []
      else ["\n要点: " ++ summarize paper.summary])
  ++ ["\n链接: " ++ paper.pdf_url, eqLine]

/-- The updated-papers loop of `format_papers_for_email`, carrying the
running entry number. -/
def emailUpdatedSection (summarize : String → String) (fmtDate : Int → String) :
    Nat → List PaperInfo → List String
  | _, [] => []
  | count, paper :: rest =>
    emailEntryUpdated summarize fmtDate count paper
      ++ emailUpdatedSection summarize fmtDate (count + 1) rest

/-- The published-papers loop of `format_papers_for_email`. -/
def emailPublishedSection (summarize : String → String) (fmtDate : Int → String) :
    Nat → List PaperInfo → List String
  | _, [] => []
  | count, paper :: rest =>
    emailEntryPublished summarize fmtDate count paper
      ++ emailPublishedSection summarize fmtDate (count + 1) rest

/-- The `lines` list built by `format_papers_for_email`: date header,
count header, separator, the updated section numbered from 1, then
the published section continuing the numbering. -/
def format_papers_email_lines (nowStr : String) (summarize : String → String)
    (fmtDate : Int → String)
    (updated_papers published_papers : List PaperInfo) : List String :=
  ["日期: " ++ nowStr,
   "新论文: " ++ toString (updated_papers.length + published_papers.length) ++ " 篇\n",
   eqLine]
  ++ emailUpdatedSection summarize fmtDate 1 updated_papers
  ++ emailPublishedSection summarize fmtDate (1 + updated_papers.length) published_papers

/-- Source function `format_papers_for_email`: the lines joined by newlines. -/
def format_papers_for_email (nowStr : String) (summarize : String → String)
    (fmtDate : Int → String)
    (updated_papers published_papers : List PaperInfo) : String :=
  String.intercalate "\n"
    (format_papers_email_lines nowStr summarize fmtDate updated_papers published_papers)

/-- Boolean prefix test on character lists. -/
def strHasPrefixChars : List Char → List Char → Bool
  | [], _ => true
  | _ :: _, [] => false
  | p :: ps, c :: cs => p == c && strHasPrefixChars ps cs

/-- An email line that opens an entry: it starts with one of the two
entry markers. -/
def isEntryHeaderLine (line : String) : Bool :=
  strHasPrefixChars "\n【更新】论文 #".data line.data ||
    strHasPrefixChars "\n【发布】论文 #".data line.data

/-- The `n` consecutive naturals starting at `s`. -/
def numbersFrom : Nat → Nat → List Nat
  | _, 0 => []
  | s, n + 1 => s :: numbersFrom (s + 1) n

/-! ## The whole run (`main`) -/

/-- The observable outcome of one run of `main`: the accumulated
candidate lists, the capped selection, the committed version map, the
`new_count` counter, and the email decision. -/
structure RunResult where
  candidateUpdated : List PaperInfo
  candidatePublished : List PaperInfo
  selectedUpdated : List PaperInfo
  selectedPublished : List PaperInfo
  downloaded : VersionState
  newCount : Nat
  emailBody : Option String
  emailSent : Bool

/-- Source function `main()` (named `mainRun`; Lean reserves `main`): load is the given `downloaded0`; each category's search
either yields a result list or raises (`none`, caught and skipped);
candidates accumulate across categories; both candidate lists are
stably sorted descending by their relevant timestamp and truncated to
2; the selection is committed into the version map (which is then
saved); the email is formatted and sent only when `RECIPIENT_EMAIL`
is truthy. -/
def mainRun (downloaded0 : VersionState) (now : Int)
    (search_results : List (Option (List ArxivResult)))
    (recipient sender auth_code : Option String) (smtp_ok : Bool)
    (nowStr : String) (summarize : String → String) (fmtDate : Int → String) :
    RunResult :=
  let cand := search_results.foldl
    (fun acc res =>
      match res with
      | none => acc
      | some papers => processCategory downloaded0 now papers acc)
    ([], [])
  let all_papers_by_updated := (sortDescBy PaperInfo.updated cand.1).take 2
  let all_papers_by_published := (sortDescBy PaperInfo.published cand.2).take 2
  let downloaded1 := (all_papers_by_updated ++ all_papers_by_published).foldl
    (fun d info => dictInsert info.pdf_url info.version d) downloaded0
  let body :=
    if pyTruthy recipient then
      some (format_papers_for_email nowStr summarize fmtDate
        all_papers_by_updated all_papers_by_published)
    else none
  let sent :=
    if pyTruthy recipient then
      send_email_via_qq ("学术论文速递 - " ++ nowStr)
        (format_papers_for_email nowStr summarize fmtDate
          all_papers_by_updated all_papers_by_published)
        (recipient.getD "") sender auth_code smtp_ok
    else false
  ⟨cand.1, cand.2, all_papers_by_updated, all_papers_by_published, downloaded1,
   (all_papers_by_updated ++ all_papers_by_published).length, body, sent⟩

/-! ## C1 theorems: the novelty check -/

/-- Looking up `dictLookup` after `dictInsert` at the same key. -/
theorem dictLookup_dictInsert_self (k : String) (v : Int) :
    ∀ m : VersionState, dictLookup k (dictInsert k v m) = some v := by
  intro m
  induction m with
  | nil => simp [dictInsert, dictLookup]
  | cons kv rest ih =>
    obtain ⟨k', v'⟩ := kv
    by_cases h : k' = k <;> simp [dictInsert, dictLookup, h, ih]

/-- Looking up `dictLookup` after `dictInsert` at a different key. -/
theorem dictLookup_dictInsert_ne (k k' : String) (v : Int) (h : k ≠ k') :
    ∀ m : VersionState, dictLookup k' (dictInsert k v m) = dictLookup k' m := by
  intro m
  induction m with
  | nil => simp [dictInsert, dictLookup, h]
  | cons kv rest ih =>
    obtain ⟨k'', v''⟩ := kv
    by_cases h1 : k'' = k
    · subst h1
      simp [dictInsert, dictLookup, h]
    · by_cases h2 : k'' = k' <;> simp [dictInsert, dictLookup, h1, h2, ih, Ne.symm h]

/-- C1: `is_new_version(pdf_url, current_version, downloaded)` is true
iff `pdf_url` is absent from the map or `current_version` is strictly
greater than the stored value; once version `v` has been committed for
an identifier, presenting version `v` or lower is rejected and version
`v + 1` is accepted. -/
theorem is_new_version_spec :
    (∀ (url : String) (cv : Int) (m : VersionState),
      is_new_version url cv m = true ↔
        (dictLookup url m = none ∨ ∃ s, dictLookup url m = some s ∧ s < cv))
    ∧ (∀ (url : String) (v w : Int) (m : VersionState), w ≤ v →
        is_new_version url w (dictInsert url v m) = false)
    ∧ (∀ (url : String) (v : Int) (m : VersionState),
        is_new_version url (v + 1) (dictInsert url v m) = true) := by
  refine ⟨?_, ?_, ?_⟩
  · intro url cv m
    unfold is_new_version
    cases h : dictLookup url m with
    | none => simp
    | some s => simp [h]
  · intro url v w m hle
    unfold is_new_version
    rw [dictLookup_dictInsert_self]
    simp
    omega
  · intro url v m
    unfold is_new_version
    rw [dictLookup_dictInsert_self]
    simp

/-- C1 witness: committing version 2 rejects a later presentation of
version 2 for the same identifier. -/
theorem is_new_version_spec_witness :
    ((2 : Int) ≤ 2) ∧
      is_new_version "http://arxiv.org/pdf/2401.0001v2" 2
        (dictInsert "http://arxiv.org/pdf/2401.0001v2" 2 []) = false :=
  ⟨by decide,
   is_new_version_spec.2.1 "http://arxiv.org/pdf/2401.0001v2" 2 2 [] (by decide)⟩

/-! ## Character-level helper lemmas -/

theorem char_toNat_ofNat (n : Nat) (h : n < 55296) : (Char.ofNat n).toNat = n := by
  have hv : n.isValidChar := Or.inl h
  simp only [Char.ofNat, hv, dif_pos]
  simp [Char.toNat, Char.ofNatAux, UInt32.toNat, BitVec.toNat_ofNatLt]

theorem char_ofNat_toNat (c : Char) (h : c.toNat < 55296) :
    Char.ofNat c.toNat = c := by
  have hv : c.toNat.isValidChar := Or.inl h
  apply Char.eq_of_val_eq
  simp only [Char.ofNat, hv, dif_pos, Char.ofNatAux]
  apply UInt32.ext
  simp [UInt32.toNat, BitVec.toNat_ofNatLt, Char.toNat]

theorem char_ne_of_toNat_ne {c c' : Char} (h : c.toNat ≠ c'.toNat) : ¬ c = c' :=
  fun he => h (congrArg Char.toNat he)

theorem toNat_ofNat_digit {n : Nat} (h : n < 10) :
    (Char.ofNat (48 + n)).toNat = 48 + n := char_toNat_ofNat _ (by omega)

theorem isDigitChar_ofNat_digit {n : Nat} (h : n < 10) :
    isDigitChar (Char.ofNat (48 + n)) = true := by
  simp only [isDigitChar, toNat_ofNat_digit h, Bool.and_eq_true, decide_eq_true_eq]
  omega

theorem isWsChar_eq_false_of_digit {c : Char} (h : isDigitChar c = true) :
    isWsChar c = false := by
  simp only [isDigitChar, Bool.and_eq_true, decide_eq_true_eq] at h
  simp only [isWsChar, Bool.or_eq_false_iff, decide_eq_false_iff_not]
  omega

theorem skipWs_cons_not_ws {c : Char} (h : isWsChar c = false) (cs : List Char) :
    skipWs (c :: cs) = c :: cs := by simp [skipWs, h]

theorem skipWs_cons_ws {c : Char} (h : isWsChar c = true) (cs : List Char) :
    skipWs (c :: cs) = skipWs cs := by simp [skipWs, h]

theorem hexVal_hexDigitChar {d : Nat} (h : d < 16) :
    hexVal (hexDigitChar d) = some d := by
  interval_cases d <;> decide

/-! ## Decimal round trip -/

theorem parseDigits_no_digit {rest : List Char}
    (h : ∀ d l, rest = d :: l → isDigitChar d = false) (acc : Nat) :
    parseDigits rest acc = (acc, rest) := by
  cases rest with
  | nil => rfl
  | cons d l => simp [parseDigits, h d l rfl]

theorem natCharsAux_ne_nil {fuel n : Nat} (h : n < fuel) :
    natCharsAux fuel n ≠ [] := by
  cases fuel with
  | zero => omega
  | succ f => by_cases h10 : n < 10 <;> simp [natCharsAux, h10]

theorem natCharsAux_parseDigits : ∀ (fuel n : Nat), n < fuel →
    ∀ (rest : List Char) (acc : Nat),
    parseDigits (natCharsAux fuel n ++ rest) acc =
      parseDigits rest (acc * 10 ^ (natCharsAux fuel n).length + n) := by
  intro fuel
  induction fuel with
  | zero => intro n hn; omega
  | succ f ih =>
    intro n hn rest acc
    by_cases h10 : n < 10
    · have hunf : natCharsAux (f + 1) n = [Char.ofNat (48 + n)] := by
        simp [natCharsAux, h10]
      rw [hunf, List.cons_append, List.nil_append]
      have hstep : parseDigits (Char.ofNat (48 + n) :: rest) acc =
          parseDigits rest (acc * 10 + (48 + n - 48)) := by
        simp [parseDigits, isDigitChar_ofNat_digit h10, toNat_ofNat_digit h10]
      rw [hstep]
      congr 1
      simp only [List.length_singleton, pow_one]
      omega
    · have hdlt : n / 10 < f := by omega
      have hm10 : n % 10 < 10 := by omega
      have hunf : natCharsAux (f + 1) n =
          natCharsAux f (n / 10) ++ [Char.ofNat (48 + n % 10)] := by
        simp [natCharsAux, h10]
      rw [hunf, List.append_assoc, List.cons_append, List.nil_append,
        ih (n / 10) hdlt (Char.ofNat (48 + n % 10) :: rest) acc]
      have hstep : parseDigits (Char.ofNat (48 + n % 10) :: rest)
          (acc * 10 ^ (natCharsAux f (n / 10)).length + n / 10) =
          parseDigits rest ((acc * 10 ^ (natCharsAux f (n / 10)).length + n / 10) * 10
            + (48 + n % 10 - 48)) := by
        simp [parseDigits, isDigitChar_ofNat_digit hm10, toNat_ofNat_digit hm10]
      rw [hstep]
      congr 1
      have harith : ∀ B : Nat, (B + n / 10) * 10 + (48 + n % 10 - 48) = B * 10 + n := by
        intro B
        omega
      rw [harith (acc * 10 ^ (natCharsAux f (n / 10)).length),
        List.length_append, List.length_singleton, pow_succ, ← Nat.mul_assoc]

theorem natCharsAux_head : ∀ (fuel n : Nat), n < fuel →
    ∀ d l, natCharsAux fuel n = d :: l →
      isDigitChar d = true ∧ (1 ≤ n → d.toNat ≠ 48) := by
  intro fuel
  induction fuel with
  | zero => intro n hn; omega
  | succ f ih =>
    intro n hn d l heq
    by_cases h10 : n < 10
    · simp only [natCharsAux, h10, if_pos, List.cons.injEq] at heq
      obtain ⟨hd, -⟩ := heq
      subst hd
      refine ⟨isDigitChar_ofNat_digit h10, fun h1 => ?_⟩
      rw [toNat_ofNat_digit h10]
      omega
    · have hdlt : n / 10 < f := by omega
      have hd1 : 1 ≤ n / 10 := by omega
      have hunf : natCharsAux (f + 1) n =
          natCharsAux f (n / 10) ++ [Char.ofNat (48 + n % 10)] := by
        simp [natCharsAux, h10]
      rw [hunf] at heq
      cases hA : natCharsAux f (n / 10) with
      | nil => exact absurd hA (natCharsAux_ne_nil hdlt)
      | cons a as =>
        rw [hA, List.cons_append, List.cons.injEq] at heq
        obtain ⟨hd, -⟩ := heq
        subst hd
        have hh := ih (n / 10) hdlt a as hA
        exact ⟨hh.1, fun _ => hh.2 hd1⟩

theorem natChars_shape (n : Nat) : ∃ d l, natChars n = d :: l ∧
    isDigitChar d = true ∧ (1 ≤ n → ¬ d = '0') := by
  cases hA : natChars n with
  | nil => exact absurd hA (natCharsAux_ne_nil (Nat.lt_succ_self n))
  | cons d l =>
    have hh := natCharsAux_head (n + 1) n (Nat.lt_succ_self n) d l hA
    refine ⟨d, l, rfl, hh.1, fun h1 => char_ne_of_toNat_ne ?_⟩
    have := hh.2 h1
    simpa using this

theorem parseJNat_natChars (n : Nat) (rest : List Char)
    (hrest : ∀ d l, rest = d :: l → isDigitChar d = false) :
    parseJNat (natChars n ++ rest) = some (n, rest) := by
  by_cases h0 : n = 0
  · subst h0
    have h : natChars 0 = ['0'] := by decide
    rw [h]
    cases rest with
    | nil => decide
    | cons d l =>
      have hd := hrest d l rfl
      have h1 : isDigitChar '0' = true := by decide
      simp [parseJNat, h1, hd]
  · obtain ⟨d, l, hdl, hdig, hne0⟩ := natChars_shape n
    have hne0' : ¬ d = '0' := hne0 (by omega)
    have hkey : parseDigits (natChars n ++ rest) 0 = (n, rest) := by
      rw [natChars, natCharsAux_parseDigits (n + 1) n (Nat.lt_succ_self n) rest 0,
        parseDigits_no_digit hrest]
      simp
    rw [hdl] at hkey
    rw [hdl, List.cons_append]
    simp only [parseJNat]
    rw [if_neg (by simp [hdig]), if_neg hne0', ← List.cons_append, hkey]

theorem parseJInt_intChars (v : Int) (rest : List Char)
    (hrest : ∀ d l, rest = d :: l → isDigitChar d = false) :
    parseJInt (intChars v ++ rest) = some (v, rest) := by
  by_cases hv : v < 0
  · have hunf : intChars v = '-' :: natChars v.natAbs := by
      simp [intChars, hv]
    rw [hunf, List.cons_append]
    simp only [parseJInt, if_true]
    rw [parseJNat_natChars v.natAbs rest hrest]
    have habs : -(v.natAbs : Int) = v := by omega
    show some (-(v.natAbs : Int), rest) = some (v, rest)
    rw [habs]
  · obtain ⟨d, l, hdl, hdig, -⟩ := natChars_shape v.toNat
    have hdash : ¬ d = '-' := by
      apply char_ne_of_toNat_ne
      simp only [isDigitChar, Bool.and_eq_true, decide_eq_true_eq] at hdig
      have h45 : ('-' : Char).toNat = 45 := by decide
      omega
    have hunf : intChars v = natChars v.toNat := by
      simp [intChars, hv]
    rw [hunf, hdl, List.cons_append]
    simp only [parseJInt]
    rw [if_neg hdash, ← List.cons_append, ← hdl,
      parseJNat_natChars v.toNat rest hrest]
    have htn : ((v.toNat : Int)) = v := Int.toNat_of_nonneg (by omega)
    show some ((v.toNat : Int), rest) = some (v, rest)
    rw [htn]

/-! ## String-escape round trip -/

theorem parseJStringChars_quote (cs : List Char) :
    parseJStringChars ('"' :: cs) = some ([], cs) := by
  rw [parseJStringChars.eq_def]
  simp

theorem parseJStringChars_esc1 {e : Char} {d : Char} (hu : ¬ e = 'u')
    (hd : unescapeChar e = some d) (cs : List Char) :
    parseJStringChars ('\\' :: e :: cs) =
      match parseJStringChars cs with
      | some (s, r) => some (d :: s, r)
      | none => none := by
  rw [parseJStringChars.eq_def]
  simp [hu, hd, show ¬ ('\\' : Char) = '"' from by decide]

theorem parseJStringChars_escU {h1 h2 h3 h4 : Char} {a b c1 d : Nat}
    (hv1 : hexVal h1 = some a) (hv2 : hexVal h2 = some b)
    (hv3 : hexVal h3 = some c1) (hv4 : hexVal h4 = some d) (cs : List Char) :
    parseJStringChars ('\\' :: 'u' :: h1 :: h2 :: h3 :: h4 :: cs) =
      match parseJStringChars cs with
      | some (s, r) => some (Char.ofNat (((a * 16 + b) * 16 + c1) * 16 + d) :: s, r)
      | none => none := by
  rw [parseJStringChars.eq_def]
  simp [hv1, hv2, hv3, hv4, show ¬ ('\\' : Char) = '"' from by decide]

theorem parseJStringChars_raw {c : Char} (hq : ¬ c = '"') (hb : ¬ c = '\\')
    (hc : ¬ c.toNat < 32) (cs : List Char) :
    parseJStringChars (c :: cs) =
      match parseJStringChars cs with
      | some (s, r) => some (c :: s, r)
      | none => none := by
  rw [parseJStringChars.eq_def]
  simp [hq, hb, hc]

theorem parseJStringChars_escChars : ∀ (s rest : List Char),
    parseJStringChars (escChars s ++ '"' :: rest) = some (s, rest) := by
  intro s
  induction s with
  | nil =>
    intro rest
    simp [escChars, parseJStringChars_quote]
  | cons c cs ih =>
    intro rest
    by_cases h1 : c = '"'
    · subst h1
      have hesc : escChar '"' = ['\\', '"'] := by decide
      simp only [escChars, hesc, List.cons_append, List.nil_append,
        parseJStringChars_esc1 (show ¬ ('"' : Char) = 'u' from by decide)
          (show unescapeChar '"' = some '"' from by decide), ih]
    · by_cases h2 : c = '\\'
      · subst h2
        have hesc : escChar '\\' = ['\\', '\\'] := by decide
        simp only [escChars, hesc, List.cons_append, List.nil_append,
          parseJStringChars_esc1 (show ¬ ('\\' : Char) = 'u' from by decide)
            (show unescapeChar '\\' = some '\\' from by decide), ih]
      · by_cases h3 : c = '\x08'
        · subst h3
          have hesc : escChar '\x08' = ['\\', 'b'] := by decide
          simp only [escChars, hesc, List.cons_append, List.nil_append,
            parseJStringChars_esc1 (show ¬ ('b' : Char) = 'u' from by decide)
              (show unescapeChar 'b' = some '\x08' from by decide), ih]
        · by_cases h4 : c = '\x0c'
          · subst h4
            have hesc : escChar '\x0c' = ['\\', 'f'] := by decide
            simp only [escChars, hesc, List.cons_append, List.nil_append,
              parseJStringChars_esc1 (show ¬ ('f' : Char) = 'u' from by decide)
                (show unescapeChar 'f' = some '\x0c' from by decide), ih]
          · by_cases h5 : c = '\n'
            · subst h5
              have hesc : escChar '\n' = ['\\', 'n'] := by decide
              simp only [escChars, hesc, List.cons_append, List.nil_append,
                parseJStringChars_esc1 (show ¬ ('n' : Char) = 'u' from by decide)
                  (show unescapeChar 'n' = some '\n' from by decide), ih]
            · by_cases h6 : c = '\r'
              · subst h6
                have hesc : escChar '\r' = ['\\', 'r'] := by decide
                simp only [escChars, hesc, List.cons_append, List.nil_append,
                  parseJStringChars_esc1 (show ¬ ('r' : Char) = 'u' from by decide)
                    (show unescapeChar 'r' = some '\r' from by decide), ih]
              · by_cases h7 : c = '\t'
                · subst h7
                  have hesc : escChar '\t' = ['\\', 't'] := by decide
                  simp only [escChars, hesc, List.cons_append, List.nil_append,
                    parseJStringChars_esc1 (show ¬ ('t' : Char) = 'u' from by decide)
                      (show unescapeChar 't' = some '\t' from by decide), ih]
                · by_cases h8 : c.toNat < 32
                  · have hesc : escChar c = ['\\', 'u', '0', '0',
                        hexDigitChar (c.toNat / 16), hexDigitChar (c.toNat % 16)] := by
                      simp [escChar, h1, h2, h3, h4, h5, h6, h7, h8]
                    have hdiv : c.toNat / 16 < 16 := by omega
                    have hmod : c.toNat % 16 < 16 := by omega
                    simp only [escChars, hesc, List.cons_append, List.append_assoc,
                      List.nil_append]
                    rw [parseJStringChars_escU
                        (show hexVal '0' = some 0 from by decide)
                        (show hexVal '0' = some 0 from by decide)
                        (hexVal_hexDigitChar hdiv) (hexVal_hexDigitChar hmod), ih]
                    have hval : ((0 * 16 + 0) * 16 + c.toNat / 16) * 16 + c.toNat % 16
                        = c.toNat := by omega
                    rw [hval, char_ofNat_toNat c (by omega)]
                  · have hesc : escChar c = [c] := by
                      simp [escChar, h1, h2, h3, h4, h5, h6, h7, h8]
                    simp only [escChars, hesc, List.cons_append, List.nil_append]
                    rw [parseJStringChars_raw h1 h2 h8, ih]

/-! ## Object round trip -/

theorem string_mk_data (s : String) : String.mk s.data = s := by
  cases s
  rfl

theorem skipWs_intChars_append (v : Int) (t : List Char) :
    skipWs (intChars v ++ t) = intChars v ++ t := by
  by_cases hv : v < 0
  · have hunf : intChars v = '-' :: natChars v.natAbs := by simp [intChars, hv]
    rw [hunf, List.cons_append,
      skipWs_cons_not_ws (show isWsChar '-' = false from by decide)]
  · obtain ⟨d, l, hdl, hdig, -⟩ := natChars_shape v.toNat
    have hunf : intChars v = natChars v.toNat := by simp [intChars, hv]
    rw [hunf, hdl, List.cons_append,
      skipWs_cons_not_ws (isWsChar_eq_false_of_digit hdig)]

theorem skipWs_entriesChars (k : String) (v : Int) (m : List (String × Int))
    (t : List Char) :
    skipWs (entriesChars ((k, v) :: m) ++ t) =
      '"' :: (escChars k.data ++ '"' :: ':' :: ' ' :: (intChars v ++ entrySepChars m t)) := by
  have hsp : isWsChar ' ' = true := by decide
  have hq : isWsChar '"' = false := by decide
  cases m with
  | nil =>
    simp only [entriesChars, entryChars, entrySepChars, List.cons_append,
      List.append_assoc, skipWs_cons_ws hsp, skipWs_cons_not_ws hq]
  | cons x xs =>
    simp only [entriesChars, entryChars, entrySepChars, List.cons_append,
      List.append_assoc, skipWs_cons_ws hsp, skipWs_cons_not_ws hq]

theorem parseMembers_entriesChars : ∀ (m : List (String × Int)) (k : String)
    (v : Int) (fuel : Nat), m.length < fuel →
    parseMembers fuel
      ('"' :: (escChars k.data ++ '"' :: ':' :: ' ' ::
        (intChars v ++ entrySepChars m ['\n', '}']))) = some ((k, v) :: m, []) := by
  intro m
  induction m with
  | nil =>
    intro k v fuel hf
    obtain ⟨f, rfl⟩ : ∃ f, fuel = f + 1 := ⟨fuel - 1, by omega⟩
    rw [parseMembers.eq_def]
    simp only [entrySepChars]
    rw [parseJStringChars_escChars]
    simp only [skipWs_cons_not_ws (show isWsChar ':' = false from by decide),
      skipWs_cons_ws (show isWsChar ' ' = true from by decide),
      skipWs_intChars_append,
      parseJInt_intChars v ['\n', '}'] (by
        intro d l h
        injection h with h1 h2
        subst h1
        decide)]
    simp only [show isNumCont ['\n', '}'] = false from by decide,
      show skipWs ['\n', '}'] = ['}'] from by decide, string_mk_data]
    simp
  | cons x xs ih =>
    obtain ⟨k2, v2⟩ := x
    intro k v fuel hf
    obtain ⟨f, rfl⟩ : ∃ f, fuel = f + 1 := ⟨fuel - 1, by omega⟩
    have hxs : xs.length < f := by
      simp only [List.length_cons] at hf
      omega
    rw [parseMembers.eq_def]
    simp only [entrySepChars]
    rw [parseJStringChars_escChars]
    simp only [skipWs_cons_not_ws (show isWsChar ':' = false from by decide),
      skipWs_cons_ws (show isWsChar ' ' = true from by decide),
      skipWs_intChars_append,
      parseJInt_intChars v (',' :: '\n' :: (entriesChars ((k2, v2) :: xs) ++ ['\n', '}']))
        (by
          intro d l h
          injection h with h1 h2
          subst h1
          decide)]
    simp only [show ∀ r : List Char, isNumCont (',' :: r) = false from fun r => by
        simp [isNumCont],
      skipWs_cons_not_ws (show isWsChar ',' = false from by decide),
      skipWs_cons_ws (show isWsChar '\n' = true from by decide),
      skipWs_entriesChars, string_mk_data]
    rw [ih k2 v2 f hxs]
    simp

theorem entriesChars_length_ge : ∀ m : List (String × Int),
    m.length ≤ (entriesChars m).length := by
  intro m
  induction m with
  | nil => simp [entriesChars]
  | cons x tl ih =>
    obtain ⟨k, v⟩ := x
    cases tl with
    | nil =>
      simp only [entriesChars, entryChars, List.length_cons, List.length_nil]
      simp
    | cons y ys =>
      simp only [entriesChars, entryChars, List.length_cons, List.length_append] at ih ⊢
      omega

theorem entrySepChars_length_ge (xs : List (String × Int)) (t : List Char) :
    xs.length ≤ (entrySepChars xs t).length := by
  cases xs with
  | nil => simp [entrySepChars]
  | cons y ys =>
    have h := entriesChars_length_ge (y :: ys)
    simp only [entrySepChars, List.length_cons, List.length_append] at h ⊢
    omega

theorem json_parse_json_dump : ∀ m : List (String × Int),
    json_parse (json_dump m) = some m := by
  intro m
  cases m with
  | nil => decide
  | cons x xs =>
    obtain ⟨k, v⟩ := x
    show json_parse (String.mk ('{' :: '\n' ::
      (entriesChars ((k, v) :: xs) ++ '\n' :: '}' :: []))) = _
    have hX : skipWs ('\n' :: (entriesChars ((k, v) :: xs) ++ '\n' :: '}' :: [])) =
        '"' :: (escChars k.data ++ '"' :: ':' :: ' ' ::
          (intChars v ++ entrySepChars xs ['\n', '}'])) := by
      rw [skipWs_cons_ws (show isWsChar '\n' = true from by decide)]
      exact skipWs_entriesChars k v xs ['\n', '}']
    have hfuel : xs.length <
        (escChars k.data ++ '"' :: ':' :: ' ' ::
          (intChars v ++ entrySepChars xs ['\n', '}'])).length + 2 := by
      have h := entrySepChars_length_ge xs (['\n', '}'] : List Char)
      simp only [List.length_append, List.length_cons]
      omega
    simp only [json_parse, show (String.mk ('{' :: '\n' ::
        (entriesChars ((k, v) :: xs) ++ '\n' :: '}' :: []))).data =
        '{' :: '\n' :: (entriesChars ((k, v) :: xs) ++ '\n' :: '}' :: []) from rfl,
      skipWs_cons_not_ws (show isWsChar '{' = false from by decide), hX,
      parseMembers_entriesChars xs k v _ hfuel]
    simp [skipWs]

/-! ## C8: permissive load -/

/-- C8: loading the persisted state never raises: a missing state file
yields the empty map, content whose parse fails yields the empty map,
and otherwise load returns the parsed identifier-to-version map. -/
theorem load_downloaded_papers_spec :
    (load_downloaded_papers none = [])
    ∧ (∀ c, json_parse c = none → load_downloaded_papers (some c) = [])
    ∧ (∀ c m, json_parse c = some m → load_downloaded_papers (some c) = m) := by
  refine ⟨rfl, ?_, ?_⟩
  · intro c h
    simp [load_downloaded_papers, h]
  · intro c m h
    simp [load_downloaded_papers, h]

/-- C8 witness: unparseable content loads as the empty map. -/
theorem load_downloaded_papers_spec_witness :
    json_parse "paper_scraper state" = none ∧
      load_downloaded_papers (some "paper_scraper state") = [] :=
  ⟨by decide, load_downloaded_papers_spec.2.1 "paper_scraper state" (by decide)⟩

/-! ## C9: save-then-load round trip -/

/-- C9: for every version map `m`, `save(m)` followed by `load()`
returns `m` itself, so applying `save(load())` twice with no
intervening commit leaves the persisted file unchanged. -/
theorem save_load_round_trip :
    (∀ m : List (String × Int),
      load_downloaded_papers (save_downloaded_papers m) = m)
    ∧ (∀ file : Option String,
      save_downloaded_papers (load_downloaded_papers
        (save_downloaded_papers (load_downloaded_papers file))) =
        save_downloaded_papers (load_downloaded_papers file)) := by
  have h1 : ∀ m : List (String × Int),
      load_downloaded_papers (save_downloaded_papers m) = m := by
    intro m
    simp [load_downloaded_papers, save_downloaded_papers, json_parse_json_dump]
  exact ⟨h1, fun file => by rw [h1]⟩

/-! ## Stable-sort lemmas -/

theorem insertDescBy_perm (key : PaperInfo → Int) (x : PaperInfo) :
    ∀ l : List PaperInfo, List.Perm (insertDescBy key x l) (x :: l) := by
  intro l
  induction l with
  | nil => simp [insertDescBy]
  | cons y ys ih =>
    by_cases h : key x < key y
    · simp only [insertDescBy, if_pos h]
      exact (ih.cons y).trans (List.Perm.swap x y ys)
    · simp [insertDescBy, h]

theorem sortDescBy_perm (key : PaperInfo → Int) :
    ∀ l : List PaperInfo, List.Perm (sortDescBy key l) l := by
  intro l
  induction l with
  | nil => simp [sortDescBy]
  | cons x xs ih =>
    have hr : sortDescBy key (x :: xs) = insertDescBy key x (sortDescBy key xs) := rfl
    rw [hr]
    exact (insertDescBy_perm key x _).trans (ih.cons x)

theorem insertDescBy_pairwise (key : PaperInfo → Int) (x : PaperInfo) :
    ∀ l : List PaperInfo, List.Pairwise (fun a b => key b ≤ key a) l →
      List.Pairwise (fun a b => key b ≤ key a) (insertDescBy key x l) := by
  intro l
  induction l with
  | nil => intro _; simp [insertDescBy]
  | cons y ys ih =>
    intro hp
    rcases List.pairwise_cons.1 hp with ⟨hy, hys⟩
    by_cases h : key x < key y
    · simp only [insertDescBy, if_pos h]
      refine List.pairwise_cons.2 ⟨?_, ih hys⟩
      intro z hz
      rcases List.mem_cons.1 ((insertDescBy_perm key x ys).mem_iff.1 hz) with hzx | hzys
      · subst hzx
        exact le_of_lt h
      · exact hy z hzys
    · simp only [insertDescBy, if_neg h]
      have hxy : key y ≤ key x := not_lt.1 h
      refine List.pairwise_cons.2 ⟨?_, hp⟩
      intro z hz
      rcases List.mem_cons.1 hz with hzy | hzys
      · subst hzy
        exact hxy
      · exact le_trans (hy z hzys) hxy

theorem sortDescBy_pairwise (key : PaperInfo → Int) :
    ∀ l : List PaperInfo,
      List.Pairwise (fun a b => key b ≤ key a) (sortDescBy key l) := by
  intro l
  induction l with
  | nil => simp [sortDescBy]
  | cons x xs ih => exact insertDescBy_pairwise key x _ ih

theorem filter_insertDescBy (key : PaperInfo → Int) (x : PaperInfo) (t : Int) :
    ∀ l : List PaperInfo,
      (insertDescBy key x l).filter (fun z => key z == t) =
        if key x == t then x :: l.filter (fun z => key z == t)
        else l.filter (fun z => key z == t) := by
  intro l
  induction l with
  | nil => cases hB : (key x == t) <;> simp [insertDescBy, List.filter, hB]
  | cons y ys ih =>
    by_cases h : key x < key y
    · have hstep : insertDescBy key x (y :: ys) = y :: insertDescBy key x ys := by
        simp [insertDescBy, h]
      rw [hstep, List.filter_cons, ih, List.filter_cons]
      by_cases hx : key x = t
      · have hy : ¬ key y = t := by omega
        simp [hx, hy, beq_iff_eq]
      · simp [hx, beq_iff_eq]
    · have hstep : insertDescBy key x (y :: ys) = x :: y :: ys := by
        simp [insertDescBy, h]
      rw [hstep, List.filter_cons]

theorem sortDescBy_stable (key : PaperInfo → Int) (t : Int) :
    ∀ l : List PaperInfo,
      (sortDescBy key l).filter (fun z => key z == t) =
        l.filter (fun z => key z == t) := by
  intro l
  induction l with
  | nil => rfl
  | cons x xs ih =>
    have hr : sortDescBy key (x :: xs) = insertDescBy key x (sortDescBy key xs) := rfl
    rw [hr, filter_insertDescBy, ih, List.filter_cons]

/-! ## C3: selection policy -/

/-- C3: selection sorts each candidate list descending by its relevant
timestamp (`updated` for update-candidates, `published` for
publish-candidates), ties broken by input order (stable sort: the
subsequence at any fixed timestamp is unchanged), then truncates to
the first 2 entries; the selection never holds more than 2 items per
list. -/
theorem selection_policy_spec :
    (∀ l : List PaperInfo,
      List.Pairwise (fun a b => b.updated ≤ a.updated) (sortDescBy PaperInfo.updated l)
      ∧ List.Perm (sortDescBy PaperInfo.updated l) l
      ∧ (∀ t : Int, (sortDescBy PaperInfo.updated l).filter (fun z => z.updated == t) =
          l.filter (fun z => z.updated == t)))
    ∧ (∀ l : List PaperInfo,
      List.Pairwise (fun a b => b.published ≤ a.published) (sortDescBy PaperInfo.published l)
      ∧ List.Perm (sortDescBy PaperInfo.published l) l
      ∧ (∀ t : Int, (sortDescBy PaperInfo.published l).filter (fun z => z.published == t) =
          l.filter (fun z => z.published == t)))
    ∧ (∀ (downloaded0 : VersionState) (now : Int)
        (search_results : List (Option (List ArxivResult)))
        (recipient sender auth_code : Option String) (smtp_ok : Bool)
        (nowStr : String) (summarize : String → String) (fmtDate : Int → String),
        (mainRun downloaded0 now search_results recipient sender auth_code smtp_ok
            nowStr summarize fmtDate).selectedUpdated =
          (sortDescBy PaperInfo.updated (mainRun downloaded0 now search_results
            recipient sender auth_code smtp_ok nowStr summarize
            fmtDate).candidateUpdated).take 2
        ∧ (mainRun downloaded0 now search_results recipient sender auth_code smtp_ok
            nowStr summarize fmtDate).selectedPublished =
          (sortDescBy PaperInfo.published (mainRun downloaded0 now search_results
            recipient sender auth_code smtp_ok nowStr summarize
            fmtDate).candidatePublished).take 2
        ∧ (mainRun downloaded0 now search_results recipient sender auth_code smtp_ok
            nowStr summarize fmtDate).selectedUpdated.length ≤ 2
        ∧ (mainRun downloaded0 now search_results recipient sender auth_code smtp_ok
            nowStr summarize fmtDate).selectedPublished.length ≤ 2) := by
  refine ⟨?_, ?_, ?_⟩
  · intro l
    exact ⟨sortDescBy_pairwise _ l, sortDescBy_perm _ l, fun t => sortDescBy_stable _ t l⟩
  · intro l
    exact ⟨sortDescBy_pairwise _ l, sortDescBy_perm _ l, fun t => sortDescBy_stable _ t l⟩
  · intro downloaded0 now search_results recipient sender auth_code smtp_ok
      nowStr summarize fmtDate
    exact ⟨rfl, rfl, List.length_take_le 2 _, List.length_take_le 2 _⟩

/-! ## Resolution-loop lemmas -/

theorem updatedLoop_spec (d : VersionState) : ∀ (papers : List ArxivResult)
    (cu : List PaperInfo) (ts : List String),
    (∀ s, s ∈ ts → s ∈ (updatedLoop d papers cu ts).2)
    ∧ (∀ i, i ∈ (updatedLoop d papers cu ts).1 → i ∈ cu ∨
        (i.version = get_version_from_pdf_url i.pdf_url
         ∧ is_new_version i.pdf_url i.version d = true
         ∧ i.title ∈ (updatedLoop d papers cu ts).2)) := by
  intro papers
  induction papers with
  | nil =>
    intro cu ts
    exact ⟨fun s hs => hs, fun i hi => Or.inl hi⟩
  | cons p rest ih =>
    intro cu ts
    by_cases h : is_new_version (get_paper_info p).pdf_url (get_paper_info p).version d = true
    · have hstep : updatedLoop d (p :: rest) cu ts =
          updatedLoop d rest (cu ++ [get_paper_info p])
            (ts ++ [(get_paper_info p).title]) := by
        simp [updatedLoop, h]
      rw [hstep]
      obtain ⟨iha, ihb⟩ := ih (cu ++ [get_paper_info p]) (ts ++ [(get_paper_info p).title])
      refine ⟨fun s hs => iha s (List.mem_append_left _ hs), fun i hi => ?_⟩
      rcases ihb i hi with hcu | hwf
      · rcases List.mem_append.1 hcu with hcu' | hsing
        · exact Or.inl hcu'
        · have hip : i = get_paper_info p := List.mem_singleton.1 hsing
          subst hip
          exact Or.inr ⟨rfl, h,
            iha _ (List.mem_append_right _ (List.mem_singleton.2 rfl))⟩
      · exact Or.inr hwf
    · have hstep : updatedLoop d (p :: rest) cu ts = updatedLoop d rest cu ts := by
        simp [updatedLoop, h]
      rw [hstep]
      exact ih cu ts

theorem publishedLoop_spec (d : VersionState) (ts : List String) :
    ∀ (papers : List ArxivResult) (cp : List PaperInfo),
    ∀ i, i ∈ publishedLoop d ts papers cp → i ∈ cp ∨
      (i.version = get_version_from_pdf_url i.pdf_url
       ∧ is_new_version i.pdf_url i.version d = true
       ∧ ¬ i.title ∈ ts) := by
  intro papers
  induction papers with
  | nil =>
    intro cp i hi
    exact Or.inl hi
  | cons p rest ih =>
    intro cp i hi
    by_cases hm : (get_paper_info p).title ∈ ts
    · have hstep : publishedLoop d ts (p :: rest) cp = publishedLoop d ts rest cp := by
        simp [publishedLoop, hm]
      rw [hstep] at hi
      exact ih cp i hi
    · by_cases h : is_new_version (get_paper_info p).pdf_url (get_paper_info p).version d = true
      · have hstep : publishedLoop d ts (p :: rest) cp =
            publishedLoop d ts rest (cp ++ [get_paper_info p]) := by
          simp [publishedLoop, hm, h]
        rw [hstep] at hi
        rcases ih _ i hi with hcp | hwf
        · rcases List.mem_append.1 hcp with hcp' | hsing
          · exact Or.inl hcp'
          · have hip : i = get_paper_info p := List.mem_singleton.1 hsing
            subst hip
            exact Or.inr ⟨rfl, h, hm⟩
        · exact Or.inr hwf
      · have hstep : publishedLoop d ts (p :: rest) cp = publishedLoop d ts rest cp := by
          simp [publishedLoop, hm, h]
        rw [hstep] at hi
        exact ih cp i hi

/-! ## C2: title disjointness of the candidate lists -/

/-- C2 counterexample: with two categories, a paper of title "T" that
is a recent version-2 revision in the first category and a distinct
version-1 paper with the same title "T" in the second category, the
run puts title "T" into both candidate lists (the title-deduplication
set is reset for each category while the candidate lists accumulate
across categories), so the lists are not disjoint by title. -/
theorem resolve_disjoint_counterexample :
    ((mainRun [] 0
        [some [⟨"T", [], "", 0, 0, "p1v2", none, "cs.AI", none, none⟩],
         some [⟨"T", [], "", 0, 0, "p2x", none, "cs.CR", none, none⟩]]
        none none none false "" (fun _ => "") (fun _ => "")).candidateUpdated.map
          PaperInfo.title = ["T"])
    ∧ ((mainRun [] 0
        [some [⟨"T", [], "", 0, 0, "p1v2", none, "cs.AI", none, none⟩],
         some [⟨"T", [], "", 0, 0, "p2x", none, "cs.CR", none, none⟩]]
        none none none false "" (fun _ => "") (fun _ => "")).candidatePublished.map
          PaperInfo.title = ["T"]) := by
  constructor
  · rfl
  · rfl

/-- C2 (amended): the disjointness holds per category: within a single
category's resolution (the title-deduplication set starts empty for
that category), no title of an update-candidate is also the title of
a publish-candidate.  Across categories the property fails, as the
counterexample shows. -/
theorem resolve_disjoint_single_category (d : VersionState) (now : Int)
    (papers : List ArxivResult) :
    ∀ i, i ∈ (processCategory d now papers ([], [])).2 →
    ∀ j, j ∈ (processCategory d now papers ([], [])).1 → ¬ i.title = j.title := by
  intro i hi j hj
  have hres := updatedLoop_spec d (filter_recent_by_updated papers now 180 2) [] []
  have hj' : j ∈ (updatedLoop d (filter_recent_by_updated papers now 180 2) [] []).1 := hj
  have hi' : i ∈ publishedLoop d
      (updatedLoop d (filter_recent_by_updated papers now 180 2) [] []).2
      (filter_recent_by_published papers now 180) [] := hi
  rcases hres.2 j hj' with hj0 | hjw
  · exact absurd hj0 (List.not_mem_nil j)
  rcases publishedLoop_spec d _ _ [] i hi' with hi0 | hiw
  · exact absurd hi0 (List.not_mem_nil i)
  intro heq
  exact hiw.2.2 (by rw [heq]; exact hjw.2.2)

/-- C2 amended-claim witness: a concrete single-category run with an
update-candidate and a publish-candidate whose titles must differ. -/
theorem resolve_disjoint_single_category_witness :
    (get_paper_info ⟨"S", [], "", 0, 0, "p2x", none, "cs.CR", none, none⟩ ∈
      (processCategory [] 0
        [⟨"T", [], "", 0, 0, "p1v2", none, "cs.AI", none, none⟩,
         ⟨"S", [], "", 0, 0, "p2x", none, "cs.CR", none, none⟩] ([], [])).2)
    ∧ (get_paper_info ⟨"T", [], "", 0, 0, "p1v2", none, "cs.AI", none, none⟩ ∈
      (processCategory [] 0
        [⟨"T", [], "", 0, 0, "p1v2", none, "cs.AI", none, none⟩,
         ⟨"S", [], "", 0, 0, "p2x", none, "cs.CR", none, none⟩] ([], [])).1)
    ∧ ¬ (get_paper_info (⟨"S", [], "", 0, 0, "p2x", none, "cs.CR", none,
          none⟩ : ArxivResult)).title =
        (get_paper_info (⟨"T", [], "", 0, 0, "p1v2", none, "cs.AI", none,
          none⟩ : ArxivResult)).title :=
  ⟨by decide, by decide,
   resolve_disjoint_single_category [] 0
     [⟨"T", [], "", 0, 0, "p1v2", none, "cs.AI", none, none⟩,
      ⟨"S", [], "", 0, 0, "p2x", none, "cs.CR", none, none⟩]
     (get_paper_info ⟨"S", [], "", 0, 0, "p2x", none, "cs.CR", none, none⟩)
     (by decide)
     (get_paper_info ⟨"T", [], "", 0, 0, "p1v2", none, "cs.AI", none, none⟩)
     (by decide)⟩

/-! ## C4: commit frame and effect -/

theorem processCategory_wf (d : VersionState) (now : Int) (papers : List ArxivResult)
    (cand : List PaperInfo × List PaperInfo) :
    (∀ i, i ∈ (processCategory d now papers cand).1 → i ∈ cand.1 ∨
      (i.version = get_version_from_pdf_url i.pdf_url
       ∧ is_new_version i.pdf_url i.version d = true))
    ∧ (∀ i, i ∈ (processCategory d now papers cand).2 → i ∈ cand.2 ∨
      (i.version = get_version_from_pdf_url i.pdf_url
       ∧ is_new_version i.pdf_url i.version d = true)) := by
  constructor
  · intro i hi
    have hi' : i ∈ (updatedLoop d (filter_recent_by_updated papers now 180 2)
        cand.1 []).1 := hi
    rcases (updatedLoop_spec d (filter_recent_by_updated papers now 180 2)
        cand.1 []).2 i hi' with h | h
    · exact Or.inl h
    · exact Or.inr ⟨h.1, h.2.1⟩
  · intro i hi
    have hi' : i ∈ publishedLoop d
        (updatedLoop d (filter_recent_by_updated papers now 180 2) cand.1 []).2
        (filter_recent_by_published papers now 180) cand.2 := hi
    rcases publishedLoop_spec d _ _ cand.2 i hi' with h | h
    · exact Or.inl h
    · exact Or.inr ⟨h.1, h.2.1⟩

theorem categoriesFold_wf (d : VersionState) (now : Int) :
    ∀ (results : List (Option (List ArxivResult)))
      (acc : List PaperInfo × List PaperInfo),
    (∀ i, i ∈ acc.1 → i.version = get_version_from_pdf_url i.pdf_url
      ∧ is_new_version i.pdf_url i.version d = true) →
    (∀ i, i ∈ acc.2 → i.version = get_version_from_pdf_url i.pdf_url
      ∧ is_new_version i.pdf_url i.version d = true) →
    (∀ i, i ∈ (results.foldl (fun acc res =>
        match res with
        | none => acc
        | some papers => processCategory d now papers acc) acc).1 →
      i.version = get_version_from_pdf_url i.pdf_url
        ∧ is_new_version i.pdf_url i.version d = true)
    ∧ (∀ i, i ∈ (results.foldl (fun acc res =>
        match res with
        | none => acc
        | some papers => processCategory d now papers acc) acc).2 →
      i.version = get_version_from_pdf_url i.pdf_url
        ∧ is_new_version i.pdf_url i.version d = true) := by
  intro results
  induction results with
  | nil =>
    intro acc h1 h2
    exact ⟨h1, h2⟩
  | cons r rest ih =>
    intro acc h1 h2
    cases r with
    | none => exact ih acc h1 h2
    | some papers =>
      apply ih
      · intro i hi
        rcases (processCategory_wf d now papers acc).1 i hi with h | h
        · exact h1 i h
        · exact h
      · intro i hi
        rcases (processCategory_wf d now papers acc).2 i hi with h | h
        · exact h2 i h
        · exact h

theorem commitFold_frame : ∀ (L : List PaperInfo) (d : VersionState) (k : String),
    (∀ i, i ∈ L → ¬ i.pdf_url = k) →
    dictLookup k (L.foldl (fun dl info => dictInsert info.pdf_url info.version dl) d) =
      dictLookup k d := by
  intro L
  induction L with
  | nil =>
    intro d k _
    rfl
  | cons a rest ih =>
    intro d k h
    have hk : ¬ a.pdf_url = k := h a (List.mem_cons_self a rest)
    rw [List.foldl_cons,
      ih (dictInsert a.pdf_url a.version d) k (fun i hi => h i (List.mem_cons_of_mem a hi)),
      dictLookup_dictInsert_ne _ _ _ hk]

theorem commitFold_write : ∀ (L : List PaperInfo) (d : VersionState),
    (∀ i, i ∈ L → ∀ j, j ∈ L → i.pdf_url = j.pdf_url → i.version = j.version) →
    ∀ i, i ∈ L →
      dictLookup i.pdf_url
        (L.foldl (fun dl info => dictInsert info.pdf_url info.version dl) d) =
        some i.version := by
  intro L
  induction L with
  | nil =>
    intro d _ i hi
    exact absurd hi (List.not_mem_nil i)
  | cons a rest ih =>
    intro d hcons i hi
    rw [List.foldl_cons]
    rcases List.mem_cons.1 hi with hia | hirest
    · subst hia
      by_cases hmem : ∃ j, j ∈ rest ∧ j.pdf_url = i.pdf_url
      · obtain ⟨j, hj, hurl⟩ := hmem
        have hver : j.version = i.version :=
          hcons j (List.mem_cons_of_mem i hj) i (List.mem_cons_self i rest) hurl
        have hw := ih (dictInsert i.pdf_url i.version d)
          (fun x hx y hy hxy =>
            hcons x (List.mem_cons_of_mem i hx) y (List.mem_cons_of_mem i hy) hxy)
          j hj
        rw [hurl, hver] at hw
        exact hw
      · push_neg at hmem
        rw [commitFold_frame rest _ i.pdf_url hmem]
        exact dictLookup_dictInsert_self i.pdf_url i.version d
    · exact ih _ (fun x hx y hy hxy =>
        hcons x (List.mem_cons_of_mem _ hx) y (List.mem_cons_of_mem _ hy) hxy) i hirest

/-- C4: commit updates the version map exactly at the identifiers of
the final, truncated selection: every selected record's identifier
maps to its version afterwards; every key outside the selected
identifiers is unchanged (so nothing is removed, and candidates
dropped by truncation are not recorded as seen); every previously
stored entry is overwritten with an equal-or-larger value. -/
theorem commit_spec (downloaded0 : VersionState) (now : Int)
    (search_results : List (Option (List ArxivResult)))
    (recipient sender auth_code : Option String) (smtp_ok : Bool) (nowStr : String)
    (summarize : String → String) (fmtDate : Int → String) (r : RunResult)
    (hr : r = mainRun downloaded0 now search_results recipient sender auth_code
      smtp_ok nowStr summarize fmtDate) :
    (∀ i, i ∈ r.selectedUpdated ++ r.selectedPublished →
        dictLookup i.pdf_url r.downloaded = some i.version)
    ∧ (∀ k : String, (∀ i, i ∈ r.selectedUpdated ++ r.selectedPublished →
        ¬ i.pdf_url = k) → dictLookup k r.downloaded = dictLookup k downloaded0)
    ∧ (∀ k v, dictLookup k downloaded0 = some v →
        ∃ w, dictLookup k r.downloaded = some w ∧ v ≤ w)
    ∧ (∀ i, i ∈ r.candidateUpdated ++ r.candidatePublished →
        (∀ j, j ∈ r.selectedUpdated ++ r.selectedPublished →
          ¬ j.pdf_url = i.pdf_url) →
        dictLookup i.pdf_url r.downloaded = dictLookup i.pdf_url downloaded0) := by
  subst hr
  have hfold := categoriesFold_wf downloaded0 now search_results ([], [])
    (fun i hi => absurd hi (List.not_mem_nil i))
    (fun i hi => absurd hi (List.not_mem_nil i))
  have hself : ∀ i, i ∈ (mainRun downloaded0 now search_results recipient sender
      auth_code smtp_ok nowStr summarize fmtDate).selectedUpdated ++
      (mainRun downloaded0 now search_results recipient sender auth_code smtp_ok
        nowStr summarize fmtDate).selectedPublished →
      i.version = get_version_from_pdf_url i.pdf_url
        ∧ is_new_version i.pdf_url i.version downloaded0 = true := by
    intro i hi
    rcases List.mem_append.1 hi with h | h
    · have h1 : i ∈ (sortDescBy PaperInfo.updated (mainRun downloaded0 now
          search_results recipient sender auth_code smtp_ok nowStr summarize
          fmtDate).candidateUpdated).take 2 := h
      have h2 := (sortDescBy_perm PaperInfo.updated _).mem_iff.1
        (List.mem_of_mem_take h1)
      exact hfold.1 i h2
    · have h1 : i ∈ (sortDescBy PaperInfo.published (mainRun downloaded0 now
          search_results recipient sender auth_code smtp_ok nowStr summarize
          fmtDate).candidatePublished).take 2 := h
      have h2 := (sortDescBy_perm PaperInfo.published _).mem_iff.1
        (List.mem_of_mem_take h1)
      exact hfold.2 i h2
  have hcons : ∀ i, i ∈ (mainRun downloaded0 now search_results recipient sender
      auth_code smtp_ok nowStr summarize fmtDate).selectedUpdated ++
      (mainRun downloaded0 now search_results recipient sender auth_code smtp_ok
        nowStr summarize fmtDate).selectedPublished →
      ∀ j, j ∈ (mainRun downloaded0 now search_results recipient sender auth_code
        smtp_ok nowStr summarize fmtDate).selectedUpdated ++
        (mainRun downloaded0 now search_results recipient sender auth_code smtp_ok
          nowStr summarize fmtDate).selectedPublished →
      i.pdf_url = j.pdf_url → i.version = j.version := by
    intro i hi j hj hurl
    rw [(hself i hi).1, (hself j hj).1, hurl]
  have hdl : (mainRun downloaded0 now search_results recipient sender auth_code
      smtp_ok nowStr summarize fmtDate).downloaded =
      ((mainRun downloaded0 now search_results recipient sender auth_code smtp_ok
        nowStr summarize fmtDate).selectedUpdated ++
       (mainRun downloaded0 now search_results recipient sender auth_code smtp_ok
        nowStr summarize fmtDate).selectedPublished).foldl
        (fun dl info => dictInsert info.pdf_url info.version dl) downloaded0 := rfl
  have hwrite := commitFold_write _ downloaded0 hcons
  have hframe : ∀ k : String, (∀ i, i ∈ (mainRun downloaded0 now search_results
      recipient sender auth_code smtp_ok nowStr summarize fmtDate).selectedUpdated ++
      (mainRun downloaded0 now search_results recipient sender auth_code smtp_ok
        nowStr summarize fmtDate).selectedPublished → ¬ i.pdf_url = k) →
      dictLookup k (mainRun downloaded0 now search_results recipient sender
        auth_code smtp_ok nowStr summarize fmtDate).downloaded =
        dictLookup k downloaded0 := by
    intro k hk
    rw [hdl]
    exact commitFold_frame _ downloaded0 k hk
  refine ⟨?_, hframe, ?_, ?_⟩
  · intro i hi
    rw [hdl]
    exact hwrite i hi
  · intro k v hkv
    by_cases hex : ∃ i, i ∈ (mainRun downloaded0 now search_results recipient
        sender auth_code smtp_ok nowStr summarize fmtDate).selectedUpdated ++
        (mainRun downloaded0 now search_results recipient sender auth_code smtp_ok
          nowStr summarize fmtDate).selectedPublished ∧ i.pdf_url = k
    · obtain ⟨i, hi, hurl⟩ := hex
      refine ⟨i.version, ?_, ?_⟩
      · rw [← hurl, hdl]
        exact hwrite i hi
      · have hnew := (hself i hi).2
        have hlook : dictLookup i.pdf_url downloaded0 = some v := by
          rw [hurl]
          exact hkv
        unfold is_new_version at hnew
        rw [hlook] at hnew
        simp only [decide_eq_true_eq] at hnew
        omega
    · push_neg at hex
      exact ⟨v, by rw [hframe k hex]; exact hkv, le_refl v⟩
  · intro i _ hsel
    exact hframe i.pdf_url hsel

/-- C4 witness: a single selected paper of version 2 is recorded in
the version map at its identifier. -/
theorem commit_spec_witness :
    (get_paper_info ⟨"T", [], "", 0, 0, "p1v2", none, "cs.AI", none, none⟩ ∈
      (mainRun [] 0 [some [⟨"T", [], "", 0, 0, "p1v2", none, "cs.AI", none, none⟩]]
        none none none false "" (fun _ => "") (fun _ => "")).selectedUpdated ++
      (mainRun [] 0 [some [⟨"T", [], "", 0, 0, "p1v2", none, "cs.AI", none, none⟩]]
        none none none false "" (fun _ => "") (fun _ => "")).selectedPublished)
    ∧ dictLookup "p1v2"
        (mainRun [] 0 [some [⟨"T", [], "", 0, 0, "p1v2", none, "cs.AI", none, none⟩]]
          none none none false "" (fun _ => "") (fun _ => "")).downloaded = some 2 :=
  ⟨by decide,
   (commit_spec [] 0 [some [⟨"T", [], "", 0, 0, "p1v2", none, "cs.AI", none, none⟩]]
     none none none false "" (fun _ => "") (fun _ => "") _ rfl).1
     (get_paper_info ⟨"T", [], "", 0, 0, "p1v2", none, "cs.AI", none, none⟩)
     (by decide)⟩

/-! ## C5: the empty run -/

/-- C5 counterexample: with both categories returning empty result
sets but a recipient (and mail credentials) configured, the code
still formats and sends a digest email reporting zero papers — the
claim's "no email is sent since there are no new items" fails. -/
theorem empty_run_counterexample :
    ((mainRun [] 0 [some [], some []] (some "user@example.com") (some "sender@qq.com")
        (some "authcode") true "2025-01-01 00:00" (fun _ => "") (fun _ => "")).emailSent
      = true)
    ∧ ((mainRun [] 0 [some [], some []] (some "user@example.com") (some "sender@qq.com")
        (some "authcode") true "2025-01-01 00:00" (fun _ => "")
        (fun _ => "")).selectedUpdated = [])
    ∧ ((mainRun [] 0 [some [], some []] (some "user@example.com") (some "sender@qq.com")
        (some "authcode") true "2025-01-01 00:00" (fun _ => "")
        (fun _ => "")).selectedPublished = [])
    ∧ ((mainRun [] 0 [some [], some []] (some "user@example.com") (some "sender@qq.com")
        (some "authcode") true "2025-01-01 00:00" (fun _ => "")
        (fun _ => "")).downloaded = []) :=
  ⟨rfl, rfl, rfl, rfl⟩

/-- C5 (amended): when search returns empty result sets for both
categories the run completes, the version map is unchanged, the
selection is empty and `new_count` is zero; no email is sent when no
recipient is configured — but when a recipient (and credentials) are
configured, the zero-item digest email is still sent, as the
counterexample shows. -/
theorem empty_run_spec (downloaded0 : VersionState) (now : Int)
    (recipient sender auth_code : Option String) (smtp_ok : Bool) (nowStr : String)
    (summarize : String → String) (fmtDate : Int → String) :
    (mainRun downloaded0 now [some [], some []] recipient sender auth_code smtp_ok
      nowStr summarize fmtDate).downloaded = downloaded0
    ∧ (mainRun downloaded0 now [some [], some []] recipient sender auth_code smtp_ok
      nowStr summarize fmtDate).selectedUpdated = []
    ∧ (mainRun downloaded0 now [some [], some []] recipient sender auth_code smtp_ok
      nowStr summarize fmtDate).selectedPublished = []
    ∧ (mainRun downloaded0 now [some [], some []] recipient sender auth_code smtp_ok
      nowStr summarize fmtDate).newCount = 0
    ∧ (recipient = none →
        (mainRun downloaded0 now [some [], some []] recipient sender auth_code
          smtp_ok nowStr summarize fmtDate).emailSent = false
        ∧ (mainRun downloaded0 now [some [], some []] recipient sender auth_code
          smtp_ok nowStr summarize fmtDate).emailBody = none) := by
  refine ⟨rfl, rfl, rfl, rfl, ?_⟩
  intro hrec
  subst hrec
  exact ⟨rfl, rfl⟩

/-- C5 amended-claim witness: a concrete empty run with no recipient
configured sends nothing and leaves the map unchanged. -/
theorem empty_run_spec_witness :
    ((none : Option String) = none)
    ∧ ((mainRun [("p1v2", 2)] 0 [some [], some []] none none none false ""
        (fun _ => "") (fun _ => "")).emailSent = false
      ∧ (mainRun [("p1v2", 2)] 0 [some [], some []] none none none false ""
        (fun _ => "") (fun _ => "")).emailBody = none) :=
  ⟨rfl, (empty_run_spec [("p1v2", 2)] 0 none none none false ""
    (fun _ => "") (fun _ => "")).2.2.2.2 rfl⟩

/-! ## C6: the updated-recency filter -/

/-- C6: `filter_recent_by_updated` keeps exactly the records whose
`updated` timestamp meets the window bound and whose extracted version
meets `min_version`; version extraction defaults to 1 when no `v`
digit marker exists; hence a version-1 record always fails the filter
whenever `min_version > 1`, however recent its `updated` stamp. -/
theorem filter_recent_by_updated_spec :
    (∀ (papers : List ArxivResult) (now days min_version : Int) (p : ArxivResult),
      p ∈ filter_recent_by_updated papers now days min_version ↔
        p ∈ papers ∧ now - days * 86400 ≤ p.updated
          ∧ min_version ≤ get_version_from_pdf_url p.pdf_url)
    ∧ (∀ (papers : List ArxivResult) (now days min_version : Int),
        List.Sublist (filter_recent_by_updated papers now days min_version) papers)
    ∧ (∀ s : String, findVersionNum s.data = none → get_version_from_pdf_url s = 1)
    ∧ (∀ (papers : List ArxivResult) (now days min_version : Int) (p : ArxivResult),
        p ∈ papers → get_version_from_pdf_url p.pdf_url = 1 → 1 < min_version →
        ¬ p ∈ filter_recent_by_updated papers now days min_version) := by
  have hmem : ∀ (papers : List ArxivResult) (now days min_version : Int)
      (p : ArxivResult),
      p ∈ filter_recent_by_updated papers now days min_version ↔
        p ∈ papers ∧ now - days * 86400 ≤ p.updated
          ∧ min_version ≤ get_version_from_pdf_url p.pdf_url := by
    intro papers now days min_version p
    simp [filter_recent_by_updated, List.mem_filter]
  refine ⟨hmem, ?_, ?_, ?_⟩
  · intro papers now days min_version
    exact List.filter_sublist papers
  · intro s h
    by_cases hs : s = ""
    · simp [get_version_from_pdf_url, hs]
    · simp [get_version_from_pdf_url, hs, h]
  · intro papers now days min_version p _ hv hm hmemf
    have := ((hmem papers now days min_version p).1 hmemf).2.2
    rw [hv] at this
    omega

/-- C6 witness: a version-1 record with `updated` inside the window is
rejected by the updated filter at `min_version = 2`. -/
theorem filter_recent_by_updated_spec_witness :
    ((⟨"T", [], "", 0, 0, "xy", none, "cs.AI", none, none⟩ : ArxivResult) ∈
      [(⟨"T", [], "", 0, 0, "xy", none, "cs.AI", none, none⟩ : ArxivResult)])
    ∧ get_version_from_pdf_url "xy" = 1
    ∧ ((1 : Int) < 2)
    ∧ ¬ (⟨"T", [], "", 0, 0, "xy", none, "cs.AI", none, none⟩ : ArxivResult) ∈
        filter_recent_by_updated
          [⟨"T", [], "", 0, 0, "xy", none, "cs.AI", none, none⟩] 0 180 2 :=
  ⟨by decide, by decide, by decide,
   filter_recent_by_updated_spec.2.2.2
     [⟨"T", [], "", 0, 0, "xy", none, "cs.AI", none, none⟩] 0 180 2
     ⟨"T", [], "", 0, 0, "xy", none, "cs.AI", none, none⟩
     (by decide) (by decide) (by decide)⟩

/-! ## C7: the published-recency filter -/

/-- C7: `filter_recent_by_published` is a pure, order-preserving
filter keeping exactly the records with
`published >= now - days * 86400` (inclusive lower bound): a record
published exactly at the limit is kept, one second earlier is
dropped. -/
theorem filter_recent_by_published_spec :
    (∀ (papers : List ArxivResult) (now days : Int) (p : ArxivResult),
      p ∈ filter_recent_by_published papers now days ↔
        p ∈ papers ∧ now - days * 86400 ≤ p.published)
    ∧ (∀ (papers : List ArxivResult) (now days : Int),
        List.Sublist (filter_recent_by_published papers now days) papers)
    ∧ (∀ (papers : List ArxivResult) (now days : Int) (p : ArxivResult),
        p ∈ papers → p.published = now - days * 86400 →
        p ∈ filter_recent_by_published papers now days)
    ∧ (∀ (papers : List ArxivResult) (now days : Int) (p : ArxivResult),
        p.published = now - days * 86400 - 1 →
        ¬ p ∈ filter_recent_by_published papers now days) := by
  have hmem : ∀ (papers : List ArxivResult) (now days : Int) (p : ArxivResult),
      p ∈ filter_recent_by_published papers now days ↔
        p ∈ papers ∧ now - days * 86400 ≤ p.published := by
    intro papers now days p
    simp [filter_recent_by_published, List.mem_filter]
  refine ⟨hmem, ?_, ?_, ?_⟩
  · intro papers now days
    exact List.filter_sublist papers
  · intro papers now days p hp hb
    exact (hmem papers now days p).2 ⟨hp, by omega⟩
  · intro papers now days p hb hmemf
    have := ((hmem papers now days p).1 hmemf).2
    omega

/-- C7 witness: with `now = 0` and a 180-day window the limit is
`-15552000`; a record published exactly then is kept, one published
one second earlier is dropped. -/
theorem filter_recent_by_published_spec_witness :
    ((⟨"A", [], "", -15552000, 0, "a", none, "cs.AI", none, none⟩ : ArxivResult) ∈
      [(⟨"A", [], "", -15552000, 0, "a", none, "cs.AI", none, none⟩ : ArxivResult)])
    ∧ ((-15552000 : Int) = 0 - 180 * 86400)
    ∧ (⟨"A", [], "", -15552000, 0, "a", none, "cs.AI", none, none⟩ : ArxivResult) ∈
        filter_recent_by_published
          [⟨"A", [], "", -15552000, 0, "a", none, "cs.AI", none, none⟩] 0 180
    ∧ ((-15552001 : Int) = 0 - 180 * 86400 - 1)
    ∧ ¬ (⟨"B", [], "", -15552001, 0, "b", none, "cs.AI", none, none⟩ : ArxivResult) ∈
        filter_recent_by_published
          [⟨"B", [], "", -15552001, 0, "b", none, "cs.AI", none, none⟩] 0 180 :=
  ⟨by decide, by decide,
   filter_recent_by_published_spec.2.2.1
     [⟨"A", [], "", -15552000, 0, "a", none, "cs.AI", none, none⟩] 0 180
     ⟨"A", [], "", -15552000, 0, "a", none, "cs.AI", none, none⟩
     (by decide) (by decide),
   by decide,
   filter_recent_by_published_spec.2.2.2
     [⟨"B", [], "", -15552001, 0, "b", none, "cs.AI", none, none⟩] 0 180
     ⟨"B", [], "", -15552001, 0, "b", none, "cs.AI", none, none⟩
     (by decide)⟩

/-! ## C10: email numbering -/

theorem string_data_append (s t : String) : (s ++ t).data = s.data ++ t.data := by
  cases s
  cases t
  rfl

theorem string_append_eq_mk (s t : String) :
    s ++ t = String.mk (s.data ++ t.data) := by
  cases s
  cases t
  rfl

theorem strHasPrefixChars_self_append : ∀ (p t : List Char),
    strHasPrefixChars p (p ++ t) = true := by
  intro p
  induction p with
  | nil => intro t; rfl
  | cons c cs ih => intro t; simp [strHasPrefixChars, ih]

theorem isEntryHeaderLine_updated (t : String) :
    isEntryHeaderLine ("\n【更新】论文 #" ++ t) = true := by
  simp only [isEntryHeaderLine, string_data_append, strHasPrefixChars_self_append,
    Bool.true_or]

theorem isEntryHeaderLine_published (t : String) :
    isEntryHeaderLine ("\n【发布】论文 #" ++ t) = true := by
  simp only [isEntryHeaderLine, string_data_append, strHasPrefixChars_self_append,
    Bool.or_true]

theorem notEntryHeader_two (a b : Char) (l : List Char)
    (h : ¬ a = '\n' ∨ ¬ b = '【') :
    isEntryHeaderLine (String.mk (a :: b :: l)) = false := by
  have hu : "\n【更新】论文 #".data =
      '\n' :: '【' :: '更' :: '新' :: '】' :: '论' :: '文' :: ' ' :: '#' :: [] := rfl
  have hp : "\n【发布】论文 #".data =
      '\n' :: '【' :: '发' :: '布' :: '】' :: '论' :: '文' :: ' ' :: '#' :: [] := rfl
  simp only [isEntryHeaderLine, hu, hp]
  rcases h with h | h
  · have h1 : ('\n' == a) = false := beq_eq_false_iff_ne.2 (fun he => h he.symm)
    simp [strHasPrefixChars, h1]
  · have h1 : ('【' == b) = false := beq_eq_false_iff_ne.2 (fun he => h he.symm)
    simp [strHasPrefixChars, h1]

theorem notHeader_append (a b : Char) (l : List Char) (pre t : String)
    (hdata : pre.data = a :: b :: l) (h : ¬ a = '\n' ∨ ¬ b = '【') :
    isEntryHeaderLine (pre ++ t) = false := by
  have heq : pre ++ t = String.mk (a :: b :: (l ++ t.data)) := by
    rw [string_append_eq_mk, hdata]
    rfl
  rw [heq]
  exact notEntryHeader_two a b _ h

theorem notHeader_of_head (s : String) (a b : Char) (l : List Char)
    (hdata : s.data = a :: b :: l) (h : ¬ a = '\n' ∨ ¬ b = '【') :
    isEntryHeaderLine s = false := by
  have heq : s = String.mk (a :: b :: l) := by
    rw [← hdata]
  rw [heq]
  exact notEntryHeader_two a b l h

theorem filter_emailEntryUpdated (summarize : String → String)
    (fmtDate : Int → String) (count : Nat) (paper : PaperInfo) :
    (emailEntryUpdated summarize fmtDate count paper).filter isEntryHeaderLine =
      ["\n【更新】论文 #" ++ toString count] := by
  have hT : ∀ t, isEntryHeaderLine ("标题: " ++ t) = false :=
    fun t => notHeader_append '标' '题' _ _ t rfl (Or.inl (by decide))
  have hA : ∀ t, isEntryHeaderLine ("作者: " ++ t) = false :=
    fun t => notHeader_append '作' '者' _ _ t rfl (Or.inl (by decide))
  have hP : ∀ t, isEntryHeaderLine ("发布时间: " ++ t) = false :=
    fun t => notHeader_append '发' '布' _ _ t rfl (Or.inl (by decide))
  have hU : ∀ t, isEntryHeaderLine ("更新日期: " ++ t) = false :=
    fun t => notHeader_append '更' '新' _ _ t rfl (Or.inl (by decide))
  have hV : ∀ t, isEntryHeaderLine ("版本: v" ++ t) = false :=
    fun t => notHeader_append '版' '本' _ _ t rfl (Or.inl (by decide))
  have hC : ∀ t, isEntryHeaderLine ("注释: " ++ t) = false :=
    fun t => notHeader_append '注' '释' _ _ t rfl (Or.inl (by decide))
  have hY : ∀ t, isEntryHeaderLine ("\n要点: " ++ t) = false :=
    fun t => notHeader_append '\n' '要' _ _ t rfl (Or.inr (by decide))
  have hL : ∀ t, isEntryHeaderLine ("\n链接: " ++ t) = false :=
    fun t => notHeader_append '\n' '链' _ _ t rfl (Or.inr (by decide))
  have hEq : isEntryHeaderLine eqLine = false := by decide
  have hcomment : (List.filter isEntryHeaderLine ((match paper.comment with
      | some c => if c = "" then [] else ["注释: " ++ c]
      | none => []) : List String)) = [] := by
    cases paper.comment with
    | none => rfl
    | some c =>
      by_cases hce : c = ""
      · simp [hce]
      · simp [hce, hC]
  have hsum : (List.filter isEntryHeaderLine
      (if summarize paper.summary = "" then []
       else ["\n要点: " ++ summarize paper.summary])) = [] := by
    by_cases hse : summarize paper.summary = ""
    · simp [hse]
    · simp [hse, hY]
  simp only [emailEntryUpdated, List.filter_append, List.filter_cons, List.filter_nil,
    hT, hA, hP, hU, hV, hL, hEq, isEntryHeaderLine_updated, hcomment, hsum,
    if_true, if_false, Bool.false_eq_true, ite_false, List.append_nil,
    List.nil_append]

theorem filter_emailEntryPublished (summarize : String → String)
    (fmtDate : Int → String) (count : Nat) (paper : PaperInfo) :
    (emailEntryPublished summarize fmtDate count paper).filter isEntryHeaderLine =
      ["\n【发布】论文 #" ++ toString count] := by
  have hT : ∀ t, isEntryHeaderLine ("标题: " ++ t) = false :=
    fun t => notHeader_append '标' '题' _ _ t rfl (Or.inl (by decide))
  have hA : ∀ t, isEntryHeaderLine ("作者: " ++ t) = false :=
    fun t => notHeader_append '作' '者' _ _ t rfl (Or.inl (by decide))
  have hP : ∀ t, isEntryHeaderLine ("发布时间: " ++ t) = false :=
    fun t => notHeader_append '发' '布' _ _ t rfl (Or.inl (by decide))
  have hV : ∀ t, isEntryHeaderLine ("版本: v" ++ t) = false :=
    fun t => notHeader_append '版' '本' _ _ t rfl (Or.inl (by decide))
  have hC : ∀ t, isEntryHeaderLine ("注释: " ++ t) = false :=
    fun t => notHeader_append '注' '释' _ _ t rfl (Or.inl (by decide))
  have hY : ∀ t, isEntryHeaderLine ("\n要点: " ++ t) = false :=
    fun t => notHeader_append '\n' '要' _ _ t rfl (Or.inr (by decide))
  have hL : ∀ t, isEntryHeaderLine ("\n链接: " ++ t) = false :=
    fun t => notHeader_append '\n' '链' _ _ t rfl (Or.inr (by decide))
  have hEq : isEntryHeaderLine eqLine = false := by decide
  have hcomment : (List.filter isEntryHeaderLine ((match paper.comment with
      | some c => if c = "" then [] else ["注释: " ++ c]
      | none => []) : List String)) = [] := by
    cases paper.comment with
    | none => rfl
    | some c =>
      by_cases hce : c = ""
      · simp [hce]
      · simp [hce, hC]
  have hsum : (List.filter isEntryHeaderLine
      (if summarize paper.summary = "" then []
       else ["\n要点: " ++ summarize paper.summary])) = [] := by
    by_cases hse : summarize paper.summary = ""
    · simp [hse]
    · simp [hse, hY]
  simp only [emailEntryPublished, List.filter_append, List.filter_cons, List.filter_nil,
    hT, hA, hP, hV, hL, hEq, isEntryHeaderLine_published, hcomment, hsum,
    if_true, if_false, Bool.false_eq_true, ite_false, List.append_nil,
    List.nil_append]

theorem numbersFrom_length : ∀ (n s : Nat), (numbersFrom s n).length = n := by
  intro n
  induction n with
  | zero => intro s; rfl
  | succ m ih =>
    intro s
    simp [numbersFrom, ih]

theorem filter_emailUpdatedSection (summarize : String → String)
    (fmtDate : Int → String) : ∀ (papers : List PaperInfo) (count : Nat),
    (emailUpdatedSection summarize fmtDate count papers).filter isEntryHeaderLine =
      (numbersFrom count papers.length).map
        (fun i => "\n【更新】论文 #" ++ toString i) := by
  intro papers
  induction papers with
  | nil => intro count; rfl
  | cons p rest ih =>
    intro count
    have hnum : numbersFrom count (p :: rest).length =
        count :: numbersFrom (count + 1) rest.length := rfl
    rw [emailUpdatedSection, List.filter_append, filter_emailEntryUpdated, ih,
      hnum, List.map_cons, List.singleton_append]

theorem filter_emailPublishedSection (summarize : String → String)
    (fmtDate : Int → String) : ∀ (papers : List PaperInfo) (count : Nat),
    (emailPublishedSection summarize fmtDate count papers).filter isEntryHeaderLine =
      (numbersFrom count papers.length).map
        (fun i => "\n【发布】论文 #" ++ toString i) := by
  intro papers
  induction papers with
  | nil => intro count; rfl
  | cons p rest ih =>
    intro count
    have hnum : numbersFrom count (p :: rest).length =
        count :: numbersFrom (count + 1) rest.length := rfl
    rw [emailPublishedSection, List.filter_append, filter_emailEntryPublished, ih,
      hnum, List.map_cons, List.singleton_append]

/-- C10: the email body numbers its entries consecutively from 1
across the updated section and then the published section (so the
entry-opening lines are exactly the numbers `1 .. total` and their
count — hence the last number — equals the total), and the header
line reports exactly `len(updated) + len(published)` papers; the body
is the lines joined by newlines. -/
theorem format_papers_for_email_spec (nowStr : String)
    (summarize : String → String) (fmtDate : Int → String)
    (updated_papers published_papers : List PaperInfo) :
    ((format_papers_email_lines nowStr summarize fmtDate updated_papers
        published_papers).filter isEntryHeaderLine =
      (numbersFrom 1 updated_papers.length).map
        (fun i => "\n【更新】论文 #" ++ toString i)
      ++ (numbersFrom (1 + updated_papers.length) published_papers.length).map
        (fun i => "\n【发布】论文 #" ++ toString i))
    ∧ (((format_papers_email_lines nowStr summarize fmtDate updated_papers
        published_papers).filter isEntryHeaderLine).length =
      updated_papers.length + published_papers.length)
    ∧ ((format_papers_email_lines nowStr summarize fmtDate updated_papers
        published_papers).get? 1 =
      some ("新论文: " ++ toString (updated_papers.length + published_papers.length)
        ++ " 篇\n"))
    ∧ (format_papers_for_email nowStr summarize fmtDate updated_papers
        published_papers =
      String.intercalate "\n" (format_papers_email_lines nowStr summarize fmtDate
        updated_papers published_papers)) := by
  have hD : ∀ t, isEntryHeaderLine ("日期: " ++ t) = false :=
    fun t => notHeader_append '日' '期' _ _ t rfl (Or.inl (by decide))
  have hN : ∀ t, isEntryHeaderLine ("新论文: " ++ t) = false :=
    fun t => notHeader_append '新' '论' _ _ t rfl (Or.inl (by decide))
  have hEq : isEntryHeaderLine eqLine = false := by decide
  have hN2 : isEntryHeaderLine ("新论文: "
      ++ toString (updated_papers.length + published_papers.length)
      ++ " 篇\n") = false := by
    apply notHeader_of_head _ '新' '论'
      ("文: ".data ++ (toString (updated_papers.length
        + published_papers.length)).data ++ " 篇\n".data)
    · simp [string_data_append]
    · exact Or.inl (by decide)
  have hfilter : (format_papers_email_lines nowStr summarize fmtDate updated_papers
      published_papers).filter isEntryHeaderLine =
      (numbersFrom 1 updated_papers.length).map
        (fun i => "\n【更新】论文 #" ++ toString i)
      ++ (numbersFrom (1 + updated_papers.length) published_papers.length).map
        (fun i => "\n【发布】论文 #" ++ toString i) := by
    simp only [format_papers_email_lines, List.filter_append, List.filter_cons,
      List.filter_nil, hD, hN2, hEq, if_false, Bool.false_eq_true, ite_false,
      filter_emailUpdatedSection, filter_emailPublishedSection, List.nil_append]
  refine ⟨hfilter, ?_, rfl, rfl⟩
  rw [hfilter]
  simp [numbersFrom_length]
